import Mathlib

/-!
Shallow embedding of `pyhf/infer/mle.py` (maximum likelihood estimation
orchestration layer) and proofs of the specification's claims about it.

Parameter vectors, bounds and data are modelled as lists of rationals
(exact arithmetic); the external model, backend and optimizer are modelled
at their interface boundary, as the spec prescribes.  Python's `None`
arguments become `Option`; Python truthiness of list arguments (`x or d`)
is embedded by `orDefault`, where an empty list is falsy.  Python
exceptions become an `Except` result: `FitExc` covers the ValueError
raised by `_validate_fit_inputs`, the `UnspecifiedPOI` error, and
optimizer-originated failures (an abstract error type `E`, propagated
verbatim in the `optimizerError` constructor).
-/

namespace Pyhf

/-- The model configuration interface consumed by this layer:
`suggested_init()`, `suggested_bounds()`, `suggested_fixed()` and the
nullable `poi_index`. -/
structure ModelConfig where
  suggested_init : List ℚ
  suggested_bounds : List (ℚ × ℚ)
  suggested_fixed : List Bool
  poi_index : Option ℕ

/-- The statistical model interface: a configuration plus the log-density
`logpdf(pars, data)`. -/
structure Model where
  config : ModelConfig
  logpdf : List ℚ → List ℚ → ℚ

/-- The optimizer's result: at least the best-fit parameter vector, and
optionally the objective value at the optimum (under `return_fitted_val`). -/
structure FitResult where
  bestfit : List ℚ
  fitted_val : Option ℚ
deriving DecidableEq

/-- Exceptions that a fit call can surface: the ValueError raised by
`_validate_fit_inputs` (carrying parameter index, value and bound), the
`UnspecifiedPOI` error of `fixed_poi_fit`, and failures raised by the
external optimizer (payload type `E`), which this layer propagates
verbatim. -/
inductive FitExc (E : Type) where
  | valueError (par_idx : ℕ) (value : ℚ) (bound : ℚ × ℚ)
  | unspecifiedPOI
  | optimizerError (e : E)
deriving DecidableEq

/-- The external optimizer interface
`opt.minimize(objective, data, pdf, init_pars, par_bounds, fixed_vals, **kwargs)`.
`K` is the opaque passthrough-kwargs type, `E` the optimizer's error type,
`R` its result type. -/
structure Optimizer (K E R : Type) where
  minimize : (List ℚ → List ℚ → Model → ℚ) → List ℚ → Model → List ℚ →
    List (ℚ × ℚ) → List (ℕ × ℚ) → K → Except E R

instance {ε α : Type} [DecidableEq ε] [DecidableEq α] :
    DecidableEq (Except ε α) := fun x y =>
  match x, y with
  | Except.error e, Except.error e' =>
    if h : e = e' then Decidable.isTrue (h ▸ rfl)
    else Decidable.isFalse (fun hc => h (Except.error.inj hc))
  | Except.error _, Except.ok _ =>
    Decidable.isFalse (fun hc => Except.noConfusion hc)
  | Except.ok _, Except.error _ =>
    Decidable.isFalse (fun hc => Except.noConfusion hc)
  | Except.ok a, Except.ok a' =>
    if h : a = a' then Decidable.isTrue (h ▸ rfl)
    else Decidable.isFalse (fun hc => h (Except.ok.inj hc))

/-- Embeds `twice_nll(pars, data, pdf)`: the line
`return -2 * pdf.logpdf(pars, data)` of the source. -/
def twice_nll (pars data : List ℚ) (pdf : Model) : ℚ :=
  -2 * pdf.logpdf pars data

/-- Embedding of Python's `arg or default` for an optional list argument:
`none` (Python `None`) and an empty list are both falsy and resolve to the
default. -/
def orDefault {α : Type} (arg : Option (List α)) (dflt : List α) : List α :=
  match arg with
  | none => dflt
  | some l => if l.isEmpty then dflt else l

/-- The loop of `_validate_fit_inputs`, carrying the running index of
`enumerate`: checks `bound[0] <= value <= bound[1]` for each
`(value, bound)` pair and raises at the first violation. -/
def validateFrom {E : Type} : ℕ → List (ℚ × (ℚ × ℚ)) → Except (FitExc E) Unit
  | _, [] => Except.ok ()
  | par_idx, (value, bound) :: rest =>
    if bound.1 ≤ value ∧ value ≤ bound.2 then validateFrom (par_idx + 1) rest
    else Except.error (FitExc.valueError par_idx value bound)

/-- Embeds `_validate_fit_inputs(init_pars, par_bounds, fixed_params)`: iterates
`enumerate(zip(init_pars, par_bounds))` and raises a ValueError carrying
the index, value and bound of the first out-of-bounds initial value.
`fixed_params` is accepted but unused, as in the source. -/
def _validate_fit_inputs {E : Type} (init_pars : List ℚ)
    (par_bounds : List (ℚ × ℚ)) (fixed_params : List Bool) :
    Except (FitExc E) Unit :=
  validateFrom 0 (init_pars.zip par_bounds)

/-- The `fixed_vals` comprehension of `fit`:
`[(index, init) for index, (init, is_fixed) in enumerate(zip(init_pars, fixed_params)) if is_fixed]`. -/
def fixed_vals (init_pars : List ℚ) (fixed_params : List Bool) :
    List (ℕ × ℚ) :=
  (init_pars.zip fixed_params).enum.filterMap
    fun x => if x.2.2 then some (x.1, x.2.1) else none

/-- Embeds `fit(data, pdf, init_pars=None, par_bounds=None, fixed_params=None, **kwargs)`:
resolves each optional argument against the model's suggested default
(Python truthiness), validates the initial values against the bounds,
derives the fixed-value pairs and delegates to the optimizer, returning
its result unchanged; optimizer errors propagate verbatim. -/
def fit {K E R : Type} (opt : Optimizer K E R) (data : List ℚ) (pdf : Model)
    (init_pars : Option (List ℚ)) (par_bounds : Option (List (ℚ × ℚ)))
    (fixed_params : Option (List Bool)) (kwargs : K) : Except (FitExc E) R :=
  let init_pars := orDefault init_pars pdf.config.suggested_init
  let par_bounds := orDefault par_bounds pdf.config.suggested_bounds
  let fixed_params := orDefault fixed_params pdf.config.suggested_fixed
  match _validate_fit_inputs init_pars par_bounds fixed_params with
  | Except.error e => Except.error e
  | Except.ok _ =>
    (opt.minimize twice_nll data pdf init_pars par_bounds
      (fixed_vals init_pars fixed_params) kwargs).mapError FitExc.optimizerError

/-- Embeds `fixed_poi_fit(poi_val, data, pdf, init_pars=None, par_bounds=None, fixed_params=None, **kwargs)`:
raises `UnspecifiedPOI` when the model has no POI; otherwise copies the
resolved initial values and fixed mask (`[*(arg or default)]`), pins the
POI entry of each (`init_pars[poi] = poi_val`, `fixed_params[poi] = True`)
and delegates to `fit`, passing `par_bounds` through unchanged. -/
def fixed_poi_fit {K E R : Type} (opt : Optimizer K E R) (poi_val : ℚ)
    (data : List ℚ) (pdf : Model) (init_pars : Option (List ℚ))
    (par_bounds : Option (List (ℚ × ℚ))) (fixed_params : Option (List Bool))
    (kwargs : K) : Except (FitExc E) R :=
  match pdf.config.poi_index with
  | none => Except.error FitExc.unspecifiedPOI
  | some poi_index =>
    let init_pars := orDefault init_pars pdf.config.suggested_init
    let fixed_params := orDefault fixed_params pdf.config.suggested_fixed
    let init_pars := init_pars.set poi_index poi_val
    let fixed_params := fixed_params.set poi_index true
    fit opt data pdf (some init_pars) par_bounds (some fixed_params) kwargs

/-- Indexed-recursion form of the `fixed_vals` comprehension, used in
proofs: `fixedValsFrom n l` emits `(n + i, value)` for each position `i`
of `l` whose flag is true. -/
def fixedValsFrom : ℕ → List (ℚ × Bool) → List (ℕ × ℚ)
  | _, [] => []
  | n, p :: rest =>
    if p.2 then (n, p.1) :: fixedValsFrom (n + 1) rest
    else fixedValsFrom (n + 1) rest

/-- Demonstration three-parameter model with POI index 0, used to
instantiate theorems at concrete inputs. -/
def demoModel : Model where
  config :=
    { suggested_init := [1, 1, 1]
      suggested_bounds := [(0, 10), (0, 10), (0, 10)]
      suggested_fixed := [false, false, false]
      poi_index := some 0 }
  logpdf := fun pars data => pars.headI + data.headI

/-- Demonstration model without a designated POI. -/
def noPoiModel : Model where
  config :=
    { suggested_init := [1]
      suggested_bounds := [(0, 2)]
      suggested_fixed := [false]
      poi_index := none }
  logpdf := fun _ _ => 0

/-- A trivial concrete optimizer that reports the initial values as the
best fit. -/
def echoOpt : Optimizer Unit Unit FitResult where
  minimize := fun _ _ _ ip _ _ _ => Except.ok ⟨ip, none⟩

/-- Writes a list of (index, value) pairs into a parameter vector. -/
def applyFixed (ip : List ℚ) (fv : List (ℕ × ℚ)) : List ℚ :=
  fv.foldl (fun acc p => acc.set p.1 p.2) ip

/-- A concrete optimizer that honours the fixed-value pairs: its reported
best fit is the initial vector with every pinned index overwritten by its
pinned value. -/
def pinOpt : Optimizer Unit Unit FitResult where
  minimize := fun _ _ _ ip _ fv _ => Except.ok ⟨applyFixed ip fv, none⟩

/-- Modelled on the spec's words for the Fixed-Parameter Resolver (§4.3 /
§8 "Fixed-pair correctness"): the list of `(i, init_pars[i])` for every
index `i` where the mask is true, in ascending index order. -/
def fixedPairsSpec (init_pars : List ℚ) (fixed_params : List Bool) :
    List (ℕ × ℚ) :=
  (List.range init_pars.length).filterMap fun i =>
    if fixed_params.getD i false then some (i, init_pars.getD i 0) else none

/-- A heap of Python list objects for the mutation analysis of
`fixed_poi_fit`: rational-valued lists and boolean lists, addressed by
allocation order. -/
structure PoiStore where
  ratCells : List (List ℚ)
  boolCells : List (List Bool)

/-- Allocates a fresh rational-list object (a `[*...]` copy). -/
def allocRat (s : PoiStore) (v : List ℚ) : PoiStore × ℕ :=
  (⟨s.ratCells ++ [v], s.boolCells⟩, s.ratCells.length)

/-- Allocates a fresh boolean-list object (a `[*...]` copy). -/
def allocBool (s : PoiStore) (v : List Bool) : PoiStore × ℕ :=
  (⟨s.ratCells, s.boolCells ++ [v]⟩, s.boolCells.length)

/-- Dereferences a rational-list object. -/
def getRat (s : PoiStore) (r : ℕ) : List ℚ :=
  s.ratCells.getD r []

/-- Dereferences a boolean-list object. -/
def getBool (s : PoiStore) (r : ℕ) : List Bool :=
  s.boolCells.getD r []

/-- In-place update of a rational-list object (`lst[i] = v`). -/
def setRat (s : PoiStore) (r : ℕ) (v : List ℚ) : PoiStore :=
  ⟨s.ratCells.set r v, s.boolCells⟩

/-- In-place update of a boolean-list object (`lst[i] = v`). -/
def setBool (s : PoiStore) (r : ℕ) (v : List Bool) : PoiStore :=
  ⟨s.ratCells, s.boolCells.set r v⟩

/-- Mutable-reference embedding of lines 196–200 of `fixed_poi_fit` (the
part after the POI check that touches parameter arrays):
`init_pars = [*(init_pars or suggested_init)]` allocates a fresh list
object holding the resolved values, likewise for `fixed_params`, and the
POI entries of the two fresh objects are then assigned in place. The
caller-supplied arguments are references into the store; the function
returns the final store together with the references that are passed on
to `fit`. -/
def fixed_poi_fit_prelude (poi_index : ℕ) (poi_val : ℚ)
    (suggested_init : List ℚ) (suggested_fixed : List Bool)
    (init_ref : Option ℕ) (fixed_ref : Option ℕ) (s : PoiStore) :
    PoiStore × ℕ × ℕ :=
  let s1p := allocRat s (orDefault (init_ref.map (getRat s)) suggested_init)
  let s2p := allocBool s1p.1
    (orDefault (fixed_ref.map (getBool s1p.1)) suggested_fixed)
  let s3 := setRat s2p.1 s1p.2 ((getRat s2p.1 s1p.2).set poi_index poi_val)
  let s4 := setBool s3 s2p.2 ((getBool s3 s2p.2).set poi_index true)
  (s4, s1p.2, s2p.2)

lemma orDefault_none {α : Type} (d : List α) : orDefault none d = d := rfl

lemma orDefault_some_dflt {α : Type} (d : List α) :
    orDefault (some d) d = d := ite_self d

lemma orDefault_some_nil {α : Type} (d : List α) :
    orDefault (some []) d = d := rfl

lemma orDefault_some_ne_nil {α : Type} (l d : List α) (h : l ≠ []) :
    orDefault (some l) d = l := by
  simp [orDefault, List.isEmpty_iff, h]

lemma enumFrom_filterMap_eq_fixedValsFrom (l : List (ℚ × Bool)) (n : ℕ) :
    (l.enumFrom n).filterMap
        (fun x => if x.2.2 then some (x.1, x.2.1) else none) =
      fixedValsFrom n l := by
  induction l generalizing n with
  | nil => rfl
  | cons p rest ih =>
    cases p with
    | mk v b =>
      cases b <;>
        simp [fixedValsFrom, List.enumFrom_cons, List.filterMap_cons, ih]

lemma fixed_vals_eq_fixedValsFrom (ip : List ℚ) (m : List Bool) :
    fixed_vals ip m = fixedValsFrom 0 (ip.zip m) := by
  unfold fixed_vals
  rw [List.enum_eq_enumFrom, enumFrom_filterMap_eq_fixedValsFrom]

lemma mem_fixedValsFrom_of_getElem? (l : List (ℚ × Bool)) :
    ∀ (n i : ℕ) (v : ℚ), l[i]? = some (v, true) →
      (n + i, v) ∈ fixedValsFrom n l := by
  induction l with
  | nil => intro n i v h; simp at h
  | cons p rest ih =>
    intro n i v h
    cases i with
    | zero =>
      simp only [List.getElem?_cons_zero, Option.some.injEq] at h
      subst h
      simp [fixedValsFrom]
    | succ i =>
      simp only [List.getElem?_cons_succ] at h
      have hmem := ih (n + 1) i v h
      have harith : n + 1 + i = n + (i + 1) := by omega
      rw [harith] at hmem
      unfold fixedValsFrom
      by_cases hb : p.2 = true <;> simp [hb, hmem]

lemma fixedValsFrom_fst_ge (l : List (ℚ × Bool)) :
    ∀ (n : ℕ) (p : ℕ × ℚ), p ∈ fixedValsFrom n l → n ≤ p.1 := by
  induction l with
  | nil => intro n p h; simp [fixedValsFrom] at h
  | cons q rest ih =>
    intro n p h
    unfold fixedValsFrom at h
    by_cases hb : q.2 = true
    · rw [if_pos hb] at h
      rcases List.mem_cons.mp h with h | h
      · subst h; exact Nat.le_refl n
      · exact Nat.le_of_succ_le (ih (n + 1) p h)
    · rw [if_neg hb] at h
      exact Nat.le_of_succ_le (ih (n + 1) p h)

lemma fixedValsFrom_pairwise (l : List (ℚ × Bool)) :
    ∀ n : ℕ, List.Pairwise (fun p q : ℕ × ℚ => p.1 < q.1)
      (fixedValsFrom n l) := by
  induction l with
  | nil => intro n; exact List.Pairwise.nil
  | cons q rest ih =>
    intro n
    unfold fixedValsFrom
    by_cases hb : q.2 = true
    · rw [if_pos hb]
      refine List.Pairwise.cons ?_ (ih (n + 1))
      intro p hp
      exact Nat.lt_of_succ_le (fixedValsFrom_fst_ge rest (n + 1) p hp)
    · rw [if_neg hb]
      exact ih (n + 1)

lemma fixedValsFrom_fst_nodup (l : List (ℚ × Bool)) (n : ℕ) :
    ((fixedValsFrom n l).map Prod.fst).Nodup := by
  exact List.pairwise_map.mpr
    ((fixedValsFrom_pairwise l n).imp fun h => Nat.ne_of_lt h)

lemma validateFrom_error_at {E : Type} (l : List (ℚ × (ℚ × ℚ))) :
    ∀ (n j : ℕ) (v : ℚ) (b : ℚ × ℚ),
      l[j]? = some (v, b) → ¬(b.1 ≤ v ∧ v ≤ b.2) →
      (∀ i, i < j → ∀ w c, l[i]? = some (w, c) → c.1 ≤ w ∧ w ≤ c.2) →
      validateFrom (E := E) n l =
        Except.error (FitExc.valueError (n + j) v b) := by
  induction l with
  | nil => intro n j v b h; simp at h
  | cons p rest ih =>
    intro n j v b h hviol hmin
    cases j with
    | zero =>
      simp only [List.getElem?_cons_zero, Option.some.injEq] at h
      subst h
      unfold validateFrom
      rw [if_neg hviol, Nat.add_zero]
    | succ j =>
      simp only [List.getElem?_cons_succ] at h
      have hhead : p.2.1 ≤ p.1 ∧ p.1 ≤ p.2.2 :=
        hmin 0 (Nat.zero_lt_succ j) p.1 p.2 (by simp)
      have hmin' : ∀ i, i < j → ∀ w c, rest[i]? = some (w, c) →
          c.1 ≤ w ∧ w ≤ c.2 := by
        intro i hi w c hc
        exact hmin (i + 1) (Nat.succ_lt_succ hi) w c (by simpa using hc)
      have := ih (n + 1) j v b h hviol hmin'
      unfold validateFrom
      rw [if_pos hhead, this, Nat.add_assoc, Nat.add_comm 1 j]

lemma validateFrom_ok_or_valueError {E : Type} (l : List (ℚ × (ℚ × ℚ))) :
    ∀ n : ℕ, validateFrom (E := E) n l = Except.ok () ∨
      ∃ i v b, validateFrom (E := E) n l =
        Except.error (FitExc.valueError i v b) := by
  induction l with
  | nil => intro n; exact Or.inl rfl
  | cons p rest ih =>
    intro n
    unfold validateFrom
    by_cases hp : p.2.1 ≤ p.1 ∧ p.1 ≤ p.2.2
    · rw [if_pos hp]; exact ih (n + 1)
    · rw [if_neg hp]
      exact Or.inr ⟨n, p.1, p.2, rfl⟩

lemma mapError_optimizerError_ne_valueError {E R : Type} (x : Except E R)
    (i : ℕ) (v : ℚ) (b : ℚ × ℚ) :
    x.mapError FitExc.optimizerError ≠
      Except.error (FitExc.valueError i v b) := by
  cases x <;> simp [Except.mapError]

lemma fixedValsFrom_succ (l : List (ℚ × Bool)) :
    ∀ n : ℕ, fixedValsFrom (n + 1) l =
      (fixedValsFrom n l).map (fun p => (p.1 + 1, p.2)) := by
  induction l with
  | nil => intro n; rfl
  | cons p rest ih =>
    intro n
    unfold fixedValsFrom
    by_cases hb : p.2 = true <;> simp [hb, ih (n + 1)]

lemma fixedPairsSpec_cons (v : ℚ) (b : Bool) (ip : List ℚ)
    (m : List Bool) :
    fixedPairsSpec (v :: ip) (b :: m) =
      (if b then [((0 : ℕ), v)] else []) ++
        (fixedPairsSpec ip m).map (fun p => (p.1 + 1, p.2)) := by
  unfold fixedPairsSpec
  rw [List.length_cons, List.range_succ_eq_map, List.filterMap_cons,
    List.filterMap_map, List.map_filterMap]
  have htail :
      (fun i => ((if m.getD i false then some (i, ip.getD i 0) else none).map
          (fun p : ℕ × ℚ => (p.1 + 1, p.2)))) =
        ((fun i => if (b :: m).getD i false then
            some (i, (v :: ip).getD i 0) else none) ∘ Nat.succ) := by
    funext i
    by_cases hc : m.getD i false = true <;> simp [hc, Function.comp]
  rw [← htail]
  cases b <;> simp

lemma fixedValsFrom_zip_eq_spec : ∀ (ip : List ℚ) (m : List Bool),
    ip.length = m.length →
    fixedValsFrom 0 (ip.zip m) = fixedPairsSpec ip m := by
  intro ip
  induction ip with
  | nil => intro m _; rfl
  | cons v ip ih =>
    intro m h
    cases m with
    | nil => simp at h
    | cons b m' =>
      have hlen : ip.length = m'.length := by simpa using h
      rw [List.zip_cons_cons, fixedPairsSpec_cons]
      unfold fixedValsFrom
      rw [fixedValsFrom_succ, ih m' hlen]
      cases b <;> simp

lemma fixedValsFrom_all_false (l : List (ℚ × Bool))
    (hall : ∀ p ∈ l, p.2 = false) : ∀ n : ℕ, fixedValsFrom n l = [] := by
  induction l with
  | nil => intro n; rfl
  | cons p rest ih =>
    intro n
    unfold fixedValsFrom
    rw [if_neg (by simp [hall p (List.mem_cons_self p rest)])]
    exact ih (fun q hq => hall q (List.mem_cons_of_mem p hq)) (n + 1)

/-- Claim C10 (noninterference): the outcome of input validation in `fit`
— whether a bounds error is raised, and with which index, value and bound
— is identical across any two calls that differ only in the fixed mask.
In particular, a parameter whose mask is true is not exempted from
validation. -/
theorem fit_validation_independent_of_fixed {K E R : Type}
    (opt : Optimizer K E R) (data : List ℚ) (pdf : Model)
    (ipArg : Option (List ℚ)) (pbArg : Option (List (ℚ × ℚ)))
    (fpArg fpArg' : Option (List Bool)) (kwargs : K)
    (idx : ℕ) (v : ℚ) (b : ℚ × ℚ) :
    fit opt data pdf ipArg pbArg fpArg kwargs =
        Except.error (FitExc.valueError idx v b) ↔
      fit opt data pdf ipArg pbArg fpArg' kwargs =
        Except.error (FitExc.valueError idx v b) := by
  rcases validateFrom_ok_or_valueError (E := E)
      ((orDefault ipArg pdf.config.suggested_init).zip
        (orDefault pbArg pdf.config.suggested_bounds)) 0 with
    hok | ⟨i, w, c, herr⟩
  · simp only [fit, _validate_fit_inputs, hok]
    constructor <;> intro h <;>
      exact absurd h (mapError_optimizerError_ne_valueError _ _ _ _)
  · simp only [fit, _validate_fit_inputs, herr]

/-- Claim C2: if some index of the resolved initial values lies outside
its resolved bound, `fit` fails with the bounds ValueError carrying the
smallest such index together with its value and bound (fail-fast), for
every optimizer and fixed mask — so the optimizer is never invoked and no
value is clamped. -/
theorem fit_out_of_bounds_fail_fast {K E R : Type} (opt : Optimizer K E R)
    (data : List ℚ) (pdf : Model) (ipArg : Option (List ℚ))
    (pbArg : Option (List (ℚ × ℚ))) (fpArg : Option (List Bool))
    (kwargs : K) (j : ℕ) (v : ℚ) (b : ℚ × ℚ)
    (hv : (orDefault ipArg pdf.config.suggested_init)[j]? = some v)
    (hb : (orDefault pbArg pdf.config.suggested_bounds)[j]? = some b)
    (hviol : ¬(b.1 ≤ v ∧ v ≤ b.2))
    (hmin : ∀ i, i < j → ∀ w c,
      (orDefault ipArg pdf.config.suggested_init)[i]? = some w →
      (orDefault pbArg pdf.config.suggested_bounds)[i]? = some c →
      c.1 ≤ w ∧ w ≤ c.2) :
    fit opt data pdf ipArg pbArg fpArg kwargs =
      Except.error (FitExc.valueError j v b) := by
  have hzip : ((orDefault ipArg pdf.config.suggested_init).zip
      (orDefault pbArg pdf.config.suggested_bounds))[j]? = some (v, b) :=
    List.getElem?_zip_eq_some.mpr ⟨hv, hb⟩
  have hminz : ∀ i, i < j → ∀ w c,
      ((orDefault ipArg pdf.config.suggested_init).zip
        (orDefault pbArg pdf.config.suggested_bounds))[i]? = some (w, c) →
      c.1 ≤ w ∧ w ≤ c.2 := by
    intro i hi w c hc
    rcases List.getElem?_zip_eq_some.mp hc with ⟨h1, h2⟩
    exact hmin i hi w c h1 h2
  have herr := validateFrom_error_at (E := E) _ 0 j v b hzip hviol hminz
  simp only [fit, _validate_fit_inputs, herr, Nat.zero_add]

/-- Witness for C2: initial value 20 at index 1 violates its bound
(0, 10); index 0 is in bounds, so the error names index 1. -/
theorem fit_out_of_bounds_witness :
    fit echoOpt [] demoModel (some [5, 20, 3]) none none () =
      Except.error (FitExc.valueError 1 20 (0, 10)) := by
  refine fit_out_of_bounds_fail_fast echoOpt [] demoModel (some [5, 20, 3])
    none none () 1 20 (0, 10) rfl rfl (by norm_num) ?_
  intro i hi w c hw hc
  interval_cases i
  have hw5 : w = 5 := (Option.some.inj hw).symm
  have hc0 : c = ((0 : ℚ), (10 : ℚ)) := (Option.some.inj hc).symm
  subst hw5
  subst hc0
  exact ⟨by norm_num, by norm_num⟩

/-- Claim C5: the fixed-value pairs that `fit` derives are exactly the
pairs `(i, init_pars[i])` for the indices `i` whose mask entry is true, in
ascending index order; an all-false mask yields the empty list. -/
theorem fixed_vals_matches_spec (ip : List ℚ) (m : List Bool)
    (h : ip.length = m.length) :
    fixed_vals ip m = fixedPairsSpec ip m ∧
      ((∀ b ∈ m, b = false) → fixed_vals ip m = []) := by
  constructor
  · rw [fixed_vals_eq_fixedValsFrom]
    exact fixedValsFrom_zip_eq_spec ip m h
  · intro hall
    rw [fixed_vals_eq_fixedValsFrom]
    refine fixedValsFrom_all_false _ ?_ 0
    intro p hp
    exact hall p.2 (List.of_mem_zip hp).2

/-- Witness for C5: a concrete mask selecting indices 0 and 2. -/
theorem fixed_vals_matches_spec_witness :
    fixed_vals [1, 2, 3] [true, false, true] =
        fixedPairsSpec [1, 2, 3] [true, false, true] ∧
      fixedPairsSpec [1, 2, 3] [true, false, true] = [(0, 1), (2, 3)] :=
  ⟨(fixed_vals_matches_spec [1, 2, 3] [true, false, true] (by decide)).1,
    by decide⟩

/-- The claim C1 of the specification: `twice_nll(p, d, model)` is exactly
`-2 * model.log_density(p, d)` for every parameter vector, data vector and
model — exact equality in the embedding's exact arithmetic. -/
theorem twice_nll_exact (p d : List ℚ) (m : Model) :
    twice_nll p d m = -2 * m.logpdf p d := rfl

/-- Claim C4: on a model whose configuration has no designated POI index,
`fixed_poi_fit` always returns the `UnspecifiedPOI` error, for every
optimizer, POI value, data and argument combination — in particular the
result does not depend on the optimizer or on any parameter array, so the
optimizer is never consulted and no array is touched. -/
theorem fixed_poi_fit_no_poi {K E R : Type} (opt : Optimizer K E R)
    (poi_val : ℚ) (data : List ℚ) (pdf : Model)
    (init_pars : Option (List ℚ)) (par_bounds : Option (List (ℚ × ℚ)))
    (fixed_params : Option (List Bool)) (kwargs : K)
    (h : pdf.config.poi_index = none) :
    fixed_poi_fit opt poi_val data pdf init_pars par_bounds fixed_params
      kwargs = Except.error FitExc.unspecifiedPOI := by
  unfold fixed_poi_fit
  rw [h]

/-- Witness for C4: the no-POI model at a concrete input. -/
theorem fixed_poi_fit_no_poi_witness :
    fixed_poi_fit echoOpt 1 [] noPoiModel none none none () =
      Except.error FitExc.unspecifiedPOI :=
  fixed_poi_fit_no_poi echoOpt 1 [] noPoiModel none none none () rfl

/-- Claim C6: each of the three optional arguments of `fit`, when omitted,
is filled from the model's corresponding suggested default, and each is
resolved independently — omitting one argument is interchangeable with
explicitly passing that model default, uniformly in whatever the caller
does with the other two arguments. -/
theorem fit_defaults_independent {K E R : Type} (opt : Optimizer K E R)
    (data : List ℚ) (pdf : Model) (ipArg : Option (List ℚ))
    (pbArg : Option (List (ℚ × ℚ))) (fpArg : Option (List Bool))
    (kwargs : K) :
    (fit opt data pdf none pbArg fpArg kwargs =
      fit opt data pdf (some pdf.config.suggested_init) pbArg fpArg kwargs) ∧
    (fit opt data pdf ipArg none fpArg kwargs =
      fit opt data pdf ipArg (some pdf.config.suggested_bounds) fpArg kwargs) ∧
    (fit opt data pdf ipArg pbArg none kwargs =
      fit opt data pdf ipArg pbArg (some pdf.config.suggested_fixed) kwargs) := by
  refine ⟨?_, ?_, ?_⟩ <;>
    simp only [fit, orDefault_none, orDefault_some_dflt]

/-- Claim C7: a caller-supplied falsy value (an explicitly empty list) for
any of the optional arguments of `fit` or `fixed_poi_fit` is resolved to
the model's suggested default, indistinguishably from omitting the
argument. -/
theorem falsy_override_eq_omitted {K E R : Type} (opt : Optimizer K E R)
    (poi_val : ℚ) (data : List ℚ) (pdf : Model) (ipArg : Option (List ℚ))
    (pbArg : Option (List (ℚ × ℚ))) (fpArg : Option (List Bool))
    (kwargs : K) :
    (fit opt data pdf (some []) pbArg fpArg kwargs =
      fit opt data pdf none pbArg fpArg kwargs) ∧
    (fit opt data pdf ipArg (some []) fpArg kwargs =
      fit opt data pdf ipArg none fpArg kwargs) ∧
    (fit opt data pdf ipArg pbArg (some []) kwargs =
      fit opt data pdf ipArg pbArg none kwargs) ∧
    (fixed_poi_fit opt poi_val data pdf (some []) pbArg fpArg kwargs =
      fixed_poi_fit opt poi_val data pdf none pbArg fpArg kwargs) ∧
    (fixed_poi_fit opt poi_val data pdf ipArg (some []) fpArg kwargs =
      fixed_poi_fit opt poi_val data pdf ipArg none fpArg kwargs) ∧
    (fixed_poi_fit opt poi_val data pdf ipArg pbArg (some []) kwargs =
      fixed_poi_fit opt poi_val data pdf ipArg pbArg none kwargs) := by
  refine ⟨rfl, rfl, rfl, ?_, ?_, ?_⟩ <;>
    simp only [fixed_poi_fit, fit, orDefault_some_nil, orDefault_none]

lemma applyFixed_not_mem (fv : List (ℕ × ℚ)) :
    ∀ (ip : List ℚ) (i : ℕ), i ∉ fv.map Prod.fst →
      (applyFixed ip fv)[i]? = ip[i]? := by
  induction fv with
  | nil => intro ip i _; rfl
  | cons p rest ih =>
    intro ip i hni
    rw [List.map_cons, List.mem_cons] at hni
    push_neg at hni
    have hstep : applyFixed ip (p :: rest) =
        applyFixed (ip.set p.1 p.2) rest := rfl
    rw [hstep, ih (ip.set p.1 p.2) i hni.2]
    exact List.getElem?_set_ne (fun h => hni.1 h.symm)

lemma applyFixed_getElem? (fv : List (ℕ × ℚ)) :
    ∀ (ip : List ℚ), (fv.map Prod.fst).Nodup →
      ∀ iv ∈ fv, iv.1 < ip.length → (applyFixed ip fv)[iv.1]? = some iv.2 := by
  induction fv with
  | nil => intro ip _ iv hm; exact absurd hm (List.not_mem_nil iv)
  | cons p rest ih =>
    intro ip hnd iv hmem hlt
    rw [List.map_cons, List.nodup_cons] at hnd
    have hstep : applyFixed ip (p :: rest) =
        applyFixed (ip.set p.1 p.2) rest := rfl
    rcases List.mem_cons.mp hmem with h | h
    · subst h
      rw [hstep, applyFixed_not_mem rest _ iv.1 hnd.1]
      exact List.getElem?_set_self (by simpa using hlt)
    · rw [hstep]
      exact ih (ip.set p.1 p.2) hnd.2 iv h (by simpa using hlt)

/-- The concrete optimizer `pinOpt` honours the optimizer contract on the
fixed-value pairs: any pair list with distinct in-range indices is
reflected exactly in the reported best fit. -/
lemma pinOpt_contract : ∀ (f : List ℚ → List ℚ → Model → ℚ) (d : List ℚ)
    (p : Model) (ip : List ℚ) (b : List (ℚ × ℚ)) (fv : List (ℕ × ℚ))
    (k : Unit) (r : FitResult),
    pinOpt.minimize f d p ip b fv k = Except.ok r →
    (fv.map Prod.fst).Nodup → ∀ iv ∈ fv, iv.1 < ip.length →
    r.bestfit[iv.1]? = some iv.2 := by
  intro f d p ip b fv k r h hnd iv hm hlt
  have hr : ({ bestfit := applyFixed ip fv, fitted_val := none } : FitResult)
      = r := Except.ok.inj h
  rw [← hr]
  exact applyFixed_getElem? fv ip hnd iv hm hlt

/-- Claim C8: when the resolved inputs pass validation, `fit` returns
exactly the optimizer's `minimize` result for the objective `twice_nll`,
the data, the model, the resolved initial values and bounds, the derived
fixed-value pairs and the passthrough options: a successful result is
passed through unchanged, and an optimizer failure propagates with its
payload intact (injected verbatim into the `optimizerError` constructor),
with no retry, recovery or reinterpretation. -/
theorem fit_optimizer_passthrough {K E R : Type} (opt : Optimizer K E R)
    (data : List ℚ) (pdf : Model) (ipArg : Option (List ℚ))
    (pbArg : Option (List (ℚ × ℚ))) (fpArg : Option (List Bool))
    (kwargs : K)
    (hval : _validate_fit_inputs (E := E)
      (orDefault ipArg pdf.config.suggested_init)
      (orDefault pbArg pdf.config.suggested_bounds)
      (orDefault fpArg pdf.config.suggested_fixed) = Except.ok ()) :
    fit opt data pdf ipArg pbArg fpArg kwargs =
      (opt.minimize twice_nll data pdf
        (orDefault ipArg pdf.config.suggested_init)
        (orDefault pbArg pdf.config.suggested_bounds)
        (fixed_vals (orDefault ipArg pdf.config.suggested_init)
          (orDefault fpArg pdf.config.suggested_fixed))
        kwargs).mapError FitExc.optimizerError := by
  simp only [fit, hval]

/-- Witness for C8: the all-defaults call on the demonstration model. -/
theorem fit_optimizer_passthrough_witness :
    fit echoOpt [] demoModel none none none () =
      (echoOpt.minimize twice_nll [] demoModel
        (orDefault none demoModel.config.suggested_init)
        (orDefault none demoModel.config.suggested_bounds)
        (fixed_vals (orDefault none demoModel.config.suggested_init)
          (orDefault none demoModel.config.suggested_fixed))
        ()).mapError FitExc.optimizerError :=
  fit_optimizer_passthrough echoOpt [] demoModel none none none ()
    (by decide)

/-- Claim C3: with a designated POI, `fixed_poi_fit` delegates to `fit`
with the resolved initial values overwritten by `poi_val` at the POI
index and the resolved fixed mask overwritten by `true` there (regardless
of the caller-supplied mask), `par_bounds` passed through unchanged; the
pinned mask reads `true` at the POI index; and — for any optimizer that
honours the fixed-value pairs it is given — any best-fit vector returned
has its POI entry exactly `poi_val`. -/
theorem fixed_poi_fit_pins_poi {K E : Type} (opt : Optimizer K E FitResult)
    (poi_val : ℚ) (data : List ℚ) (pdf : Model) (ipArg : Option (List ℚ))
    (pbArg : Option (List (ℚ × ℚ))) (fpArg : Option (List Bool))
    (kwargs : K) (poi : ℕ) (hpoi : pdf.config.poi_index = some poi)
    (hlen1 : poi < (orDefault ipArg pdf.config.suggested_init).length)
    (hlen2 : poi < (orDefault fpArg pdf.config.suggested_fixed).length)
    (hopt : ∀ (f : List ℚ → List ℚ → Model → ℚ) (d : List ℚ) (p : Model)
      (ip : List ℚ) (b : List (ℚ × ℚ)) (fv : List (ℕ × ℚ)) (k : K)
      (r : FitResult), opt.minimize f d p ip b fv k = Except.ok r →
      (fv.map Prod.fst).Nodup → ∀ iv ∈ fv, iv.1 < ip.length →
      r.bestfit[iv.1]? = some iv.2) :
    (fixed_poi_fit opt poi_val data pdf ipArg pbArg fpArg kwargs =
      fit opt data pdf
        (some ((orDefault ipArg pdf.config.suggested_init).set poi poi_val))
        pbArg
        (some ((orDefault fpArg pdf.config.suggested_fixed).set poi true))
        kwargs) ∧
    ((orDefault fpArg pdf.config.suggested_fixed).set poi true)[poi]? =
      some true ∧
    (∀ res, fixed_poi_fit opt poi_val data pdf ipArg pbArg fpArg kwargs =
      Except.ok res → res.bestfit[poi]? = some poi_val) := by
  have hdeleg : fixed_poi_fit opt poi_val data pdf ipArg pbArg fpArg kwargs =
      fit opt data pdf
        (some ((orDefault ipArg pdf.config.suggested_init).set poi poi_val))
        pbArg
        (some ((orDefault fpArg pdf.config.suggested_fixed).set poi true))
        kwargs := by
    simp only [fixed_poi_fit, hpoi]
  refine ⟨hdeleg, List.getElem?_set_self (by simpa using hlen2), ?_⟩
  intro res hres
  rw [hdeleg] at hres
  have hip : (orDefault ipArg pdf.config.suggested_init).set poi poi_val ≠
      [] := by
    apply List.ne_nil_of_length_pos
    rw [List.length_set]
    exact Nat.lt_of_le_of_lt (Nat.zero_le poi) hlen1
  have hfp : (orDefault fpArg pdf.config.suggested_fixed).set poi true ≠
      [] := by
    apply List.ne_nil_of_length_pos
    rw [List.length_set]
    exact Nat.lt_of_le_of_lt (Nat.zero_le poi) hlen2
  rcases validateFrom_ok_or_valueError (E := E)
      (((orDefault ipArg pdf.config.suggested_init).set poi poi_val).zip
        (orDefault pbArg pdf.config.suggested_bounds)) 0 with
    hok | ⟨i, w, c, herr⟩
  · simp only [fit, _validate_fit_inputs, orDefault_some_ne_nil _ _ hip,
      orDefault_some_ne_nil _ _ hfp, hok] at hres
    cases hmin : opt.minimize twice_nll data pdf
        ((orDefault ipArg pdf.config.suggested_init).set poi poi_val)
        (orDefault pbArg pdf.config.suggested_bounds)
        (fixed_vals
          ((orDefault ipArg pdf.config.suggested_init).set poi poi_val)
          ((orDefault fpArg pdf.config.suggested_fixed).set poi true))
        kwargs with
    | error e => rw [hmin] at hres; simp [Except.mapError] at hres
    | ok r =>
      rw [hmin] at hres
      simp only [Except.mapError, Except.ok.injEq] at hres
      subst hres
      have hmem : ((poi : ℕ), poi_val) ∈ fixed_vals
          ((orDefault ipArg pdf.config.suggested_init).set poi poi_val)
          ((orDefault fpArg pdf.config.suggested_fixed).set poi true) := by
        rw [fixed_vals_eq_fixedValsFrom]
        have hz : (((orDefault ipArg pdf.config.suggested_init).set poi
              poi_val).zip
            ((orDefault fpArg pdf.config.suggested_fixed).set poi
              true))[poi]? = some (poi_val, true) :=
          List.getElem?_zip_eq_some.mpr
            ⟨List.getElem?_set_self (by simpa using hlen1),
              List.getElem?_set_self (by simpa using hlen2)⟩
        have := mem_fixedValsFrom_of_getElem? _ 0 poi poi_val hz
        rwa [Nat.zero_add] at this
      have hnd : ((fixed_vals
          ((orDefault ipArg pdf.config.suggested_init).set poi poi_val)
          ((orDefault fpArg pdf.config.suggested_fixed).set poi
            true)).map Prod.fst).Nodup := by
        rw [fixed_vals_eq_fixedValsFrom]
        exact fixedValsFrom_fst_nodup _ 0
      exact hopt _ _ _ _ _ _ _ _ hmin hnd (poi, poi_val) hmem
        (by simpa using hlen1)
  · simp only [fit, _validate_fit_inputs, orDefault_some_ne_nil _ _ hip,
      orDefault_some_ne_nil _ _ hfp, herr] at hres
    exact Except.noConfusion hres

/-- Witness for C3: pinning the POI of the demonstration model to 7 with
the contract-honouring optimizer `pinOpt` yields best fit `[7, 1, 1]`,
whose POI entry is 7. -/
theorem fixed_poi_fit_pins_poi_witness :
    (fixed_poi_fit pinOpt 7 [] demoModel none none none () =
      fit pinOpt [] demoModel
        (some ((orDefault none demoModel.config.suggested_init).set 0 7))
        none
        (some ((orDefault none demoModel.config.suggested_fixed).set 0 true))
        ()) ∧
    ({ bestfit := [7, 1, 1], fitted_val := none } : FitResult).bestfit[0]? =
      some 7 := by
  have h := fixed_poi_fit_pins_poi pinOpt 7 [] demoModel none none none ()
    0 rfl (by decide) (by decide) pinOpt_contract
  exact ⟨h.1, h.2.2 { bestfit := [7, 1, 1], fitted_val := none } (by decide)⟩

lemma getD_append_self {α : Type} (l : List α) (x d : α) :
    (l ++ [x]).getD l.length d = x := by
  rw [List.getD_eq_getElem?_getD, List.getElem?_append_right (Nat.le_refl _)]
  simp

lemma getD_append_left {α : Type} (l l' : List α) (i : ℕ) (d : α)
    (h : i < l.length) : (l ++ l').getD i d = l.getD i d := by
  rw [List.getD_eq_getElem?_getD, List.getD_eq_getElem?_getD,
    List.getElem?_append_left h]

lemma getD_set_self {α : Type} (l : List α) (i : ℕ) (a d : α)
    (h : i < l.length) : (l.set i a).getD i d = a := by
  rw [List.getD_eq_getElem?_getD, List.getElem?_set_self h]
  rfl

lemma getD_set_ne {α : Type} (l : List α) (i j : ℕ) (a d : α) (h : i ≠ j) :
    (l.set i a).getD j d = l.getD j d := by
  rw [List.getD_eq_getElem?_getD, List.getD_eq_getElem?_getD,
    List.getElem?_set_ne h]

lemma fixed_poi_fit_prelude_eval (poi : ℕ) (v : ℚ) (si : List ℚ)
    (sf : List Bool) (r1 r2 : ℕ) (s : PoiStore) :
    fixed_poi_fit_prelude poi v si sf (some r1) (some r2) s =
      (⟨(s.ratCells ++ [orDefault (some (getRat s r1)) si]).set
          s.ratCells.length
          ((orDefault (some (getRat s r1)) si).set poi v),
        (s.boolCells ++ [orDefault (some (getBool s r2)) sf]).set
          s.boolCells.length
          ((orDefault (some (getBool s r2)) sf).set poi true)⟩,
        s.ratCells.length, s.boolCells.length) := by
  simp only [fixed_poi_fit_prelude, allocRat, allocBool, setRat, setBool,
    getRat, getBool, Option.map_some', getD_append_self]

/-- Claim C9 (frame property): the POI-pinning prelude of `fixed_poi_fit`
never mutates caller-owned arrays. With caller-supplied `init_pars` and
`fixed_params` references, the caller's cells are unchanged in the final
store; the pinning overwrites land on two freshly allocated copies
(references distinct from the caller's), whose final contents are exactly
the pure resolution `(caller value or default)` with the POI entry
overwritten — the values `fixed_poi_fit` hands to `fit`. -/
theorem fixed_poi_fit_mutates_only_copies (poi : ℕ) (v : ℚ) (si : List ℚ)
    (sf : List Bool) (r1 r2 : ℕ) (s : PoiStore)
    (h1 : r1 < s.ratCells.length) (h2 : r2 < s.boolCells.length) :
    (getRat (fixed_poi_fit_prelude poi v si sf (some r1) (some r2) s).1 r1 =
      getRat s r1) ∧
    (getBool (fixed_poi_fit_prelude poi v si sf (some r1) (some r2) s).1 r2 =
      getBool s r2) ∧
    ((fixed_poi_fit_prelude poi v si sf (some r1) (some r2) s).2.1 ≠ r1) ∧
    ((fixed_poi_fit_prelude poi v si sf (some r1) (some r2) s).2.2 ≠ r2) ∧
    (getRat (fixed_poi_fit_prelude poi v si sf (some r1) (some r2) s).1
        (fixed_poi_fit_prelude poi v si sf (some r1) (some r2) s).2.1 =
      (orDefault (some (getRat s r1)) si).set poi v) ∧
    (getBool (fixed_poi_fit_prelude poi v si sf (some r1) (some r2) s).1
        (fixed_poi_fit_prelude poi v si sf (some r1) (some r2) s).2.2 =
      (orDefault (some (getBool s r2)) sf).set poi true) := by
  rw [fixed_poi_fit_prelude_eval]
  have hne1 : s.ratCells.length ≠ r1 := Ne.symm (Nat.ne_of_lt h1)
  have hne2 : s.boolCells.length ≠ r2 := Ne.symm (Nat.ne_of_lt h2)
  refine ⟨?_, ?_, hne1, hne2, ?_, ?_⟩
  · show ((s.ratCells ++ [_]).set s.ratCells.length _).getD r1 [] = _
    rw [getD_set_ne _ _ _ _ _ hne1, getD_append_left _ _ _ _ h1]
    rfl
  · show ((s.boolCells ++ [_]).set s.boolCells.length _).getD r2 [] = _
    rw [getD_set_ne _ _ _ _ _ hne2, getD_append_left _ _ _ _ h2]
    rfl
  · show ((s.ratCells ++ [_]).set s.ratCells.length _).getD
        s.ratCells.length [] = _
    rw [getD_set_self]
    rw [List.length_append]
    exact Nat.lt_succ_of_le (Nat.le_refl _)
  · show ((s.boolCells ++ [_]).set s.boolCells.length _).getD
        s.boolCells.length [] = _
    rw [getD_set_self]
    rw [List.length_append]
    exact Nat.lt_succ_of_le (Nat.le_refl _)

/-- Witness for C9: a concrete one-cell store for each type; the caller's
cells survive the call unchanged. -/
theorem fixed_poi_fit_mutates_only_copies_witness :
    (getRat (fixed_poi_fit_prelude 1 9 [1, 2] [false, true] (some 0) (some 0)
        ⟨[[5, 6]], [[false, false]]⟩).1 0 =
      getRat ⟨[[5, 6]], [[false, false]]⟩ 0) ∧
    (getBool (fixed_poi_fit_prelude 1 9 [1, 2] [false, true] (some 0)
        (some 0) ⟨[[5, 6]], [[false, false]]⟩).1 0 =
      getBool ⟨[[5, 6]], [[false, false]]⟩ 0) := by
  have h := fixed_poi_fit_mutates_only_copies 1 9 [1, 2] [false, true] 0 0
    ⟨[[5, 6]], [[false, false]]⟩ (by decide) (by decide)
  exact ⟨h.1, h.2.1⟩

end Pyhf
